import Mathlib

/-!
Verification of the foodgram recipe backend (Django, `backend/foodgram/`):
a shallow embedding of the recipe-composition and shopping-list-aggregation
subsystem (`api/serializers.py`, `api/views.py`, `recipes/models.py`) with
proofs of the specified properties.

Database tables are modelled as lists in row-insertion order; machine
integers of the Django fields are modelled as `Nat`/`Int` (the columns are
`PositiveSmallIntegerField`s and the Python ints are unbounded, so no
overflow wrapping occurs at the modelled magnitudes).
-/

namespace Foodgram

/-! ## Data model (`recipes/models.py`) -/

/-- `Ingredient` model: catalog row with `name` and `measurement_unit`
(`models.py`, class `Ingredient`).  The surrogate primary key is `id`. -/
structure Ingredient where
  id : Nat
  name : String
  measurement_unit : String
deriving Repr, DecidableEq

/-- `Tag` model: catalog row with unique `name` and `slug`
(`models.py`, class `Tag`). -/
structure Tag where
  id : Nat
  name : String
  slug : String
deriving Repr, DecidableEq

/-- `Recipe` model row; `cooking_time` is an integer field
(`models.py`, class `Recipe`).  The image is kept as an opaque reference. -/
structure RecipeRow where
  id : Nat
  author : Nat
  name : String
  image : String
  text : String
  cooking_time : Int
deriving Repr, DecidableEq

/-- `IngredientInRecipe` model: one ingredient line of a recipe, a weak
reference `ingredient` (an `Ingredient` id) plus the owning `recipe` id and
the `amount` (`PositiveSmallIntegerField`, hence `Nat`). -/
structure IngredientInRecipe where
  ingredient : Nat
  recipe : Nat
  amount : Nat
deriving Repr, DecidableEq

/-- The persistent store: each Django table as a list of rows in insertion
order.  `recipeTags` is the implicit many-to-many through table linking
recipe ids to tag ids.  `cart` and `favorites` are the `ShoppingCart` and
`Favorite` tables as (user id, recipe id) pairs.  `nextRecipeId` models the
auto-increment primary-key counter of the `Recipe` table. -/
structure DB where
  ingredients : List Ingredient
  tags : List Tag
  recipes : List RecipeRow
  recipeTags : List (Nat × Nat)
  lines : List IngredientInRecipe
  cart : List (Nat × Nat)
  favorites : List (Nat × Nat)
  nextRecipeId : Nat
deriving Repr, DecidableEq

/-! ## Shopping-list aggregation (`views.py`, `download_shopping_cart`) -/

/-- `ShoppingCart.objects.filter(user=user)` — the user's cart rows in
table order. -/
def userCart (db : DB) (user : Nat) : List (Nat × Nat) :=
  db.cart.filter (fun c => c.1 == user)

/-- `IngredientInRecipe.objects.filter(recipe=...)` — the ingredient lines
of one recipe in table order. -/
def recipeLines (db : DB) (rid : Nat) : List IngredientInRecipe :=
  db.lines.filter (fun l => l.recipe == rid)

/-- The stream of ingredient lines visited by the nested `for` loops of
`download_shopping_cart`: every line of every recipe in the user's cart. -/
def cartLineStream (db : DB) (user : Nat) : List IngredientInRecipe :=
  (userCart db user).flatMap (fun c => recipeLines db c.2)

/-- `recipe_ingredient.ingredient` foreign-key dereference followed by the
grouping key `(ingredient.name, ingredient.measurement_unit)` built at
`views.py:102`.  In the database the foreign key always resolves; a dangling
id yields `none`. -/
def lineKey (db : DB) (ri : IngredientInRecipe) : Option (String × String) :=
  (db.ingredients.find? (fun ing => ing.id == ri.ingredient)).map
    (fun ing => (ing.name, ing.measurement_unit))

/-- `ingredient_dict[key] += amount` on a `defaultdict` preserving Python's
dict insertion order: an existing key keeps its position and accumulates,
a new key is appended at the end.  (The Python accumulator is a `float`;
sums of `PositiveSmallIntegerField` amounts stay far below 2^53, where
float arithmetic is exact, so `Nat` addition is faithful.) -/
def addToDict (d : List ((String × String) × Nat)) (key : String × String)
    (amt : Nat) : List ((String × String) × Nat) :=
  match d with
  | [] => [(key, amt)]
  | (k, v) :: rest =>
      if k = key then (k, v + amt) :: rest else (k, v) :: addToDict rest key amt

/-- One iteration of the inner loop at `views.py:101-103`: dereference the
line's ingredient and accumulate its amount under the (name, unit) key. -/
def aggStep (db : DB) (d : List ((String × String) × Nat))
    (ri : IngredientInRecipe) : List ((String × String) × Nat) :=
  match lineKey db ri with
  | some k => addToDict d k ri.amount
  | none => d

/-- The aggregation loop of `download_shopping_cart` (`views.py:98-103`):
fold the user's cart-line stream into the insertion-ordered dict. -/
def aggregate (db : DB) (user : Nat) : List ((String × String) × Nat) :=
  (cartLineStream db user).foldl (aggStep db) []

/-- One report line, `f"{name} ({unit}) — {amount:.0f}"` (`views.py:106`);
`:.0f` renders the (exactly-integral) float total with zero decimal
places, i.e. as the decimal integer. -/
def renderLine (key : String × String) (amount : Nat) : String :=
  key.1 ++ " (" ++ key.2 ++ ") — " ++ toString amount

/-- The full report body of `download_shopping_cart` as the list of lines
(`views.py:105-108`), in the dict's iteration order. -/
def shoppingList (db : DB) (user : Nat) : List String :=
  (aggregate db user).map (fun kv => renderLine kv.1 kv.2)

/-- Dict lookup with default 0, for stating what each group's total is. -/
def dictGet (d : List ((String × String) × Nat)) (key : String × String) : Nat :=
  match d with
  | [] => 0
  | (k, v) :: rest => if k = key then v else dictGet rest key

/-- Spec-side description of a group's total: the sum of the amounts of
every line in the user's cart-line stream whose ingredient has this
(name, measurement_unit) pair. -/
def groupTotal (db : DB) (user : Nat) (key : String × String) : Nat :=
  (((cartLineStream db user).filter
      (fun ri => decide (lineKey db ri = some key))).map (fun ri => ri.amount)).sum

/-- First-occurrence insertion of a key, as Python's dict key order does it. -/
def insKey {α : Type} [DecidableEq α] (acc : List α) (k : α) : List α :=
  if k ∈ acc then acc else acc ++ [k]

/-- The keys of a stream in order of first occurrence. -/
def firstKeys {α : Type} [DecidableEq α] (l : List α) : List α :=
  l.foldl insKey []

/-- The (name, unit) keys of the user's cart-line stream, in stream order. -/
def streamKeys (db : DB) (user : Nat) : List (String × String) :=
  (cartLineStream db user).filterMap (lineKey db)

/-- Lexicographic order on character lists by Unicode code point — exactly
how Python compares `str` values (and definitionally what `String.lt`
unfolds to on `String.data`). -/
def charsLt : List Char → List Char → Bool
  | [], [] => false
  | [], _ :: _ => true
  | _ :: _, [] => false
  | a :: as, b :: bs =>
      if a.val < b.val then true
      else if b.val < a.val then false
      else charsLt as bs

/-- Strict string order by code-point-lexicographic comparison, Python's
order on `str`. -/
def strLt (a b : String) : Bool :=
  charsLt a.data b.data

/-- The report is sorted by ingredient name ascending (the order §4.4 step 5
of the spec asserts): each consecutive pair of emitted groups has
non-decreasing names. -/
def sortedByName (out : List ((String × String) × Nat)) : Bool :=
  match out with
  | [] => true
  | [_] => true
  | a :: b :: rest => !(strLt b.1.1 a.1.1) && sortedByName (b :: rest)

/-- A concrete store realising the spec's own aggregator scenario (§8):
user 7's cart holds Recipe 1 with lines Salt:2g and Sugar:5g, then Recipe 2
with lines Salt:3g and Flour:100g. -/
def exampleDB : DB where
  ingredients := [⟨1, "Salt", "g"⟩, ⟨2, "Sugar", "g"⟩, ⟨3, "Flour", "g"⟩]
  tags := [⟨1, "breakfast", "breakfast"⟩]
  recipes := [⟨1, 1, "Recipe1", "img1", "", 10⟩, ⟨2, 1, "Recipe2", "img2", "", 10⟩]
  recipeTags := [(1, 1), (2, 1)]
  lines := [⟨1, 1, 2⟩, ⟨2, 1, 5⟩, ⟨1, 2, 3⟩, ⟨3, 2, 100⟩]
  cart := [(7, 1), (7, 2)]
  favorites := []
  nextRecipeId := 3

/-! ## Cart/Favorite ledger (`views.py`, `shopping_cart` and
`manage_favorite`) -/

/-- Error outcomes of the ledger actions, the spec's §7 `ConflictError`
kinds: both are surfaced by the views as HTTP 400. -/
inductive ConflictErr where
  | alreadyExists
  | notFound
deriving Repr, DecidableEq

/-- `shopping_cart` POST (`views.py:61-74`): reject if the (user, recipe)
pair is already in `ShoppingCart`, otherwise insert the row. -/
def shoppingCartPost (db : DB) (user recipe : Nat) :
    DB × Except ConflictErr Unit :=
  if (user, recipe) ∈ db.cart then (db, Except.error ConflictErr.alreadyExists)
  else ({ db with cart := db.cart ++ [(user, recipe)] }, Except.ok ())

/-- `shopping_cart` DELETE (`views.py:76-87`): `.get` the row (absence →
`DoesNotExist` → 400) and delete it.  The `unique_shopping_cart` constraint
guarantees at most one matching row, so deleting every match is the same
row. -/
def shoppingCartDelete (db : DB) (user recipe : Nat) :
    DB × Except ConflictErr Unit :=
  if (user, recipe) ∈ db.cart then
    ({ db with cart := db.cart.filter (fun c => !(c == (user, recipe))) },
     Except.ok ())
  else (db, Except.error ConflictErr.notFound)

/-- `manage_favorite` POST (`views.py:122-133`). -/
def favoritePost (db : DB) (user recipe : Nat) :
    DB × Except ConflictErr Unit :=
  if (user, recipe) ∈ db.favorites then
    (db, Except.error ConflictErr.alreadyExists)
  else ({ db with favorites := db.favorites ++ [(user, recipe)] }, Except.ok ())

/-- `manage_favorite` DELETE (`views.py:135-147`): `.filter(...).exists()`
guard, then the queryset's rows are deleted. -/
def favoriteDelete (db : DB) (user recipe : Nat) :
    DB × Except ConflictErr Unit :=
  if (user, recipe) ∈ db.favorites then
    ({ db with
        favorites := db.favorites.filter (fun c => !(c == (user, recipe))) },
     Except.ok ())
  else (db, Except.error ConflictErr.notFound)

/-- The two ledger relations of the spec's §4.3. -/
inductive LedgerKind where
  | cart
  | favorite
deriving Repr, DecidableEq

/-- The membership table backing a ledger kind. -/
def ledgerTable (db : DB) : LedgerKind → List (Nat × Nat)
  | LedgerKind.cart => db.cart
  | LedgerKind.favorite => db.favorites

/-- §4.3 `add`, dispatching to the kind's view action. -/
def ledgerAdd (db : DB) (kind : LedgerKind) (user recipe : Nat) :
    DB × Except ConflictErr Unit :=
  match kind with
  | LedgerKind.cart => shoppingCartPost db user recipe
  | LedgerKind.favorite => favoritePost db user recipe

/-- §4.3 `remove`, dispatching to the kind's view action. -/
def ledgerRemove (db : DB) (kind : LedgerKind) (user recipe : Nat) :
    DB × Except ConflictErr Unit :=
  match kind with
  | LedgerKind.cart => shoppingCartDelete db user recipe
  | LedgerKind.favorite => favoriteDelete db user recipe

/-- §4.3 `contains`: the `.filter(user=..., recipe=...).exists()` lookup. -/
def ledgerContains (db : DB) (kind : LedgerKind) (user recipe : Nat) : Bool :=
  decide ((user, recipe) ∈ ledgerTable db kind)

/-! ## Recipe write path (`serializers.py`, `RecipeWriteSerializer`) -/

/-- Error taxonomy of the spec's §7 for caller-supplied data, with the
offending field.  The serializer's Russian messages map onto the kinds:
empty tags/ingredients → `missingRequired`, validator bounds →
`outOfRange`, repeated ingredient ids → `duplicate`, unresolved ids →
`notFound`. -/
inductive ErrKind where
  | missingRequired
  | outOfRange
  | duplicate
  | notFound
deriving Repr, DecidableEq

/-- A field-level validation error. -/
structure ValErr where
  kind : ErrKind
  field : String
deriving Repr, DecidableEq

/-- One submitted ingredient line, `IngredientAmountSerializer`'s fields
`id` and `amount` (`serializers.py:121-141`). -/
structure LineInput where
  id : Nat
  amount : Nat
deriving Repr, DecidableEq

/-- The `cooking_time` field's validator chain (`serializers.py:203-216`):
`MinValueValidator MIN_COOKING_TIME` then `MaxValueValidator
MAX_COOKING_TIME` on the raw integer.  The bound constants live in
`recipes/constants.py` and are passed as parameters. -/
def validateCookingTime (minT maxT t : Int) : Except ValErr Int :=
  if t < minT then Except.error ⟨ErrKind.outOfRange, "cooking_time"⟩
  else if maxT < t then Except.error ⟨ErrKind.outOfRange, "cooking_time"⟩
  else Except.ok t

/-- The per-line `amount` validator chain of `IngredientAmountSerializer`
(`serializers.py:128-141`), which the framework runs on every child of the
`ingredients` field before `validate_ingredients` is reached. -/
def validateAmounts (minA maxA : Nat) (data : List LineInput) :
    Except ValErr (List LineInput) :=
  if data.all (fun l => decide (minA ≤ l.amount) && decide (l.amount ≤ maxA))
  then Except.ok data
  else Except.error ⟨ErrKind.outOfRange, "ingredients"⟩

/-- The duplicate scan of `validate_ingredients` (`serializers.py:234-242`):
walk the lines keeping the set of ids already seen; report `true` on the
first repeated id. -/
def dupScan (seen : List Nat) : List LineInput → Bool
  | [] => false
  | item :: rest =>
      if item.id ∈ seen then true else dupScan (item.id :: seen) rest

/-- Catalog lookup `Ingredient.objects.filter(id__in=...)` membership. -/
def ingredientExists (db : DB) (i : Nat) : Bool :=
  db.ingredients.any (fun ing => ing.id == i)

/-- Catalog lookup backing the `tags` `PrimaryKeyRelatedField`. -/
def tagExists (db : DB) (t : Nat) : Bool :=
  db.tags.any (fun tag => tag.id == t)

/-- Full validation of the `ingredients` field: the children's amount
validators, then `validate_ingredients` (`serializers.py:229-254`) —
non-empty, pairwise-distinct ids, and `existing_ids == ingredient_ids`.
Since the existing ids are always a subset of the submitted ids, the set
equality at `serializers.py:250` holds exactly when every submitted id
exists. -/
def validateIngredientsField (db : DB) (minA maxA : Nat)
    (data : List LineInput) : Except ValErr (List LineInput) :=
  match validateAmounts minA maxA data with
  | Except.error e => Except.error e
  | Except.ok data =>
      if data.isEmpty then
        Except.error ⟨ErrKind.missingRequired, "ingredients"⟩
      else if dupScan [] data then
        Except.error ⟨ErrKind.duplicate, "ingredients"⟩
      else if data.all (fun l => ingredientExists db l.id) then
        Except.ok data
      else
        Except.error ⟨ErrKind.notFound, "ingredients"⟩

/-- Full validation of the `tags` field: `PrimaryKeyRelatedField` resolves
every id against the `Tag` table (an unresolved id is a field error), then
`validate_tags` (`serializers.py:223-227`) rejects an empty list. -/
def validateTagsField (db : DB) (tagIds : List Nat) :
    Except ValErr (List Nat) :=
  if tagIds.all (tagExists db) then
    if tagIds.isEmpty then Except.error ⟨ErrKind.missingRequired, "tags"⟩
    else Except.ok tagIds
  else Except.error ⟨ErrKind.notFound, "tags"⟩

/-- A full create payload of `RecipeWriteSerializer`
(`Meta.fields`, `serializers.py:218-221`). -/
structure RecipePayload where
  name : String
  image : String
  text : String
  cooking_time : Int
  tags : List Nat
  ingredients : List LineInput
deriving Repr, DecidableEq

/-- An update payload: under partial update (`PATCH`) any field may be
absent; `update` at `serializers.py:266-268` pops `ingredients` and `tags`
with default `None`. -/
structure UpdatePayload where
  name : Option String
  image : Option String
  text : Option String
  cooking_time : Option Int
  tags : Option (List Nat)
  ingredients : Option (List LineInput)
deriving Repr, DecidableEq

/-- The field errors `is_valid` collects for a create payload: the
framework runs every field's validators and `validate_<field>` method and
gathers one error detail per failing field (`tags`, `ingredients`,
`cooking_time` — the remaining fields have no failing validators in this
model). -/
def fieldErrors (db : DB) (minT maxT : Int) (minA maxA : Nat)
    (p : RecipePayload) : List ValErr :=
  (match validateTagsField db p.tags with
   | Except.ok _ => []
   | Except.error e => [e]) ++
  (match validateIngredientsField db minA maxA p.ingredients with
   | Except.ok _ => []
   | Except.error e => [e]) ++
  (match validateCookingTime minT maxT p.cooking_time with
   | Except.ok _ => []
   | Except.error e => [e])

/-- The field errors collected for an update payload: absent fields are
skipped, supplied fields are validated exactly as on create. -/
def updateFieldErrors (db : DB) (minT maxT : Int) (minA maxA : Nat)
    (q : UpdatePayload) : List ValErr :=
  (match q.tags with
   | none => []
   | some ts =>
      match validateTagsField db ts with
      | Except.ok _ => []
      | Except.error e => [e]) ++
  (match q.ingredients with
   | none => []
   | some data =>
      match validateIngredientsField db minA maxA data with
      | Except.ok _ => []
      | Except.error e => [e]) ++
  (match q.cooking_time with
   | none => []
   | some t =>
      match validateCookingTime minT maxT t with
      | Except.ok _ => []
      | Except.error e => [e])

/-- `recipe.tags.set(tags_data)`: Django's m2m `set` inserts each distinct
referenced tag once (duplicates within the argument collapse); modelled
with first-occurrence deduplication. -/
def tagSet (ts : List Nat) : List Nat :=
  ts.foldl insKey []

/-- The commit path of `RecipeWriteSerializer.create`
(`serializers.py:256-264`): insert the `Recipe` row under the fresh
auto-increment id, set the tag memberships, and bulk-insert the ingredient
lines (`create_ingredients`, `serializers.py:281-290`). -/
def performCreate (db : DB) (author : Nat) (p : RecipePayload) : DB × Nat :=
  let rid := db.nextRecipeId
  ({ db with
      recipes := db.recipes
        ++ [⟨rid, author, p.name, p.image, p.text, p.cooking_time⟩],
      nextRecipeId := rid + 1,
      recipeTags := db.recipeTags ++ (tagSet p.tags).map (fun t => (rid, t)),
      lines := db.lines ++ p.ingredients.map (fun l => ⟨l.id, rid, l.amount⟩) },
   rid)

/-- The commit path of `RecipeWriteSerializer.update`
(`serializers.py:266-279`): update the supplied scalar fields, replace the
tag-membership set when `tags` is supplied, and when `ingredients` is
supplied delete every existing line of the recipe
(`instance.ingredient_in_recipe.all().delete()`) and bulk-insert the
submitted ones. -/
def performUpdate (db : DB) (rid : Nat) (q : UpdatePayload) : DB :=
  let db1 := { db with
    recipes := db.recipes.map (fun r =>
      if r.id = rid then
        { r with
            name := q.name.getD r.name,
            image := q.image.getD r.image,
            text := q.text.getD r.text,
            cooking_time := q.cooking_time.getD r.cooking_time }
      else r) }
  let db2 := match q.tags with
    | some ts =>
        { db1 with
            recipeTags := db1.recipeTags.filter (fun rt => !(rt.1 == rid))
              ++ (tagSet ts).map (fun t => (rid, t)) }
    | none => db1
  match q.ingredients with
  | some data =>
      { db2 with
          lines := db2.lines.filter (fun l => !(l.recipe == rid))
            ++ data.map (fun l => ⟨l.id, rid, l.amount⟩) }
  | none => db2

/-- `self.get_object()` resolution: the recipe row exists. -/
def recipeExists (db : DB) (rid : Nat) : Bool :=
  db.recipes.any (fun r => r.id == rid)

/-- The create endpoint: `serializer.is_valid(raise_exception=True)` (no
state touched on failure) followed by `serializer.create`. -/
def createRecipe (db : DB) (minT maxT : Int) (minA maxA : Nat)
    (author : Nat) (p : RecipePayload) : DB × Except (List ValErr) Nat :=
  if fieldErrors db minT maxT minA maxA p = [] then
    ((performCreate db author p).1, Except.ok (performCreate db author p).2)
  else (db, Except.error (fieldErrors db minT maxT minA maxA p))

/-- The update endpoint: `get_object` (404 on a missing recipe), then
`is_valid(raise_exception=True)`, then `serializer.update`. -/
def updateRecipe (db : DB) (minT maxT : Int) (minA maxA : Nat)
    (rid : Nat) (q : UpdatePayload) : DB × Except (List ValErr) Unit :=
  if recipeExists db rid then
    if updateFieldErrors db minT maxT minA maxA q = [] then
      (performUpdate db rid q, Except.ok ())
    else (db, Except.error (updateFieldErrors db minT maxT minA maxA q))
  else (db, Except.error [⟨ErrKind.notFound, "recipe"⟩])

/-! ## Recipe read path (`RecipeReadSerializer`, `serializers.py:153-178`) -/

/-- One ingredient line as `IngredientInRecipeSerializer` renders it
(`serializers.py:107-118`): the referenced ingredient's id, name and unit
plus the line's amount. -/
structure ReadLine where
  id : Nat
  name : String
  measurement_unit : String
  amount : Nat
deriving Repr, DecidableEq

/-- Dereference one stored line for reading; the foreign key always
resolves in a consistent store. -/
def readLineOf (db : DB) (l : IngredientInRecipe) : ReadLine :=
  match db.ingredients.find? (fun ing => ing.id == l.ingredient) with
  | some ing => ⟨ing.id, ing.name, ing.measurement_unit, l.amount⟩
  | none => ⟨l.ingredient, "", "", l.amount⟩

/-- The `ingredients` array a read of the recipe returns
(`source='ingredient_in_recipe'`). -/
def readRecipeLines (db : DB) (rid : Nat) : List ReadLine :=
  (recipeLines db rid).map (readLineOf db)

/-- The ids of the `tags` array a read of the recipe returns
(`recipe.tags.all()`; the tag rows are determined by their ids). -/
def readRecipeTags (db : DB) (rid : Nat) : List Nat :=
  (db.recipeTags.filter (fun rt => rt.1 == rid)).map (fun rt => rt.2)

/-- The read view of a submitted line after a successful write, for the
round-trip statement: same id and amount, name and unit from the catalog. -/
def readLineInput (db : DB) (l : LineInput) : ReadLine :=
  match db.ingredients.find? (fun ing => ing.id == l.id) with
  | some ing => ⟨ing.id, ing.name, ing.measurement_unit, l.amount⟩
  | none => ⟨l.id, "", "", l.amount⟩

/-! ## Lemmas about the insertion-ordered dict -/

theorem dictGet_addToDict (d : List ((String × String) × Nat))
    (k key : String × String) (a : Nat) :
    dictGet (addToDict d k a) key
      = dictGet d key + (if k = key then a else 0) := by
  induction d with
  | nil =>
      by_cases h : k = key <;> simp [addToDict, dictGet, h]
  | cons hd tl ih =>
      obtain ⟨hk, hv⟩ := hd
      by_cases h1 : hk = k
      · subst h1
        by_cases h2 : hk = key <;> simp [addToDict, dictGet, h2]
      · by_cases h2 : hk = key
        · subst h2
          have h3 : ¬ k = hk := fun he => h1 he.symm
          simp [addToDict, dictGet, h1, h3]
        · simp [addToDict, dictGet, h1, h2, ih]

theorem keys_addToDict (d : List ((String × String) × Nat))
    (k : String × String) (a : Nat) :
    (addToDict d k a).map (fun kv => kv.1)
      = insKey (d.map (fun kv => kv.1)) k := by
  induction d with
  | nil => simp [addToDict, insKey]
  | cons hd tl ih =>
      obtain ⟨hk, hv⟩ := hd
      by_cases h1 : hk = k
      · subst h1
        simp [addToDict, insKey]
      · have h3 : ¬ k = hk := fun he => h1 he.symm
        by_cases h2 : k ∈ tl.map (fun kv => kv.1)
        · simp [addToDict, insKey, h1, h2, h3, ih]
        · simp [addToDict, insKey, h1, h2, h3, ih]

theorem insKey_nodup {α : Type} [DecidableEq α] (acc : List α) (k : α)
    (h : acc.Nodup) : (insKey acc k).Nodup := by
  unfold insKey
  split
  · exact h
  · next hmem =>
      rw [List.nodup_append]
      refine ⟨h, List.nodup_singleton _, ?_⟩
      intro x hx hx2
      simp only [List.mem_singleton] at hx2
      subst hx2
      exact hmem hx

theorem foldl_insKey_nodup {α : Type} [DecidableEq α] (L : List α)
    (acc : List α) (h : acc.Nodup) :
    (L.foldl insKey acc).Nodup := by
  induction L generalizing acc with
  | nil => exact h
  | cons x xs ih => exact ih _ (insKey_nodup _ _ h)

theorem mem_foldl_insKey {α : Type} [DecidableEq α] (L : List α)
    (acc : List α) (x : α) :
    x ∈ L.foldl insKey acc ↔ x ∈ acc ∨ x ∈ L := by
  induction L generalizing acc with
  | nil => simp
  | cons y ys ih =>
      simp only [List.foldl_cons, ih, insKey, List.mem_cons]
      by_cases hy : y ∈ acc
      · simp only [if_pos hy]
        constructor
        · rintro (h | h)
          · exact Or.inl h
          · exact Or.inr (Or.inr h)
        · rintro (h | h | h)
          · exact Or.inl h
          · exact Or.inl (h ▸ hy)
          · exact Or.inr h
      · simp only [if_neg hy, List.mem_append, List.mem_singleton]
        tauto

theorem dictGet_foldl_aggStep (db : DB) (L : List IngredientInRecipe)
    (d : List ((String × String) × Nat)) (key : String × String) :
    dictGet (L.foldl (aggStep db) d) key
      = dictGet d key
        + ((L.filter (fun ri => decide (lineKey db ri = some key))).map
            (fun ri => ri.amount)).sum := by
  induction L generalizing d with
  | nil => simp
  | cons ri rest ih =>
      simp only [List.foldl_cons, List.filter_cons]
      rw [ih]
      cases hk : lineKey db ri with
      | none => simp [aggStep, hk]
      | some k =>
          simp only [aggStep, hk]
          rw [dictGet_addToDict]
          by_cases h2 : k = key
          · subst h2
            simp [hk, Nat.add_assoc]
          · simp [hk, h2, Option.some.injEq]

theorem keys_foldl_aggStep (db : DB) (L : List IngredientInRecipe)
    (d : List ((String × String) × Nat)) :
    (L.foldl (aggStep db) d).map (fun kv => kv.1)
      = (L.filterMap (lineKey db)).foldl insKey (d.map (fun kv => kv.1)) := by
  induction L generalizing d with
  | nil => simp
  | cons ri rest ih =>
      simp only [List.foldl_cons, List.filterMap_cons]
      cases hk : lineKey db ri with
      | none => simp [aggStep, hk, ih]
      | some k => simp [aggStep, hk, ih, keys_addToDict]

theorem dictGet_of_mem (d : List ((String × String) × Nat))
    (kv : (String × String) × Nat)
    (hnd : (d.map (fun x => x.1)).Nodup) (hm : kv ∈ d) :
    dictGet d kv.1 = kv.2 := by
  induction d with
  | nil => cases hm
  | cons hd tl ih =>
      simp only [List.map_cons, List.nodup_cons] at hnd
      cases hm with
      | head =>
          obtain ⟨hk, hv⟩ := kv
          simp [dictGet]
      | tail _ hm2 =>
          have hne : ¬ hd.1 = kv.1 := fun he =>
            hnd.1 (he ▸ List.mem_map_of_mem (fun x => x.1) hm2)
          obtain ⟨hk, hv⟩ := hd
          simp only at hne
          simp [dictGet, hne, ih hnd.2 hm2]

/-! ## Theorems: shopping-list aggregation (claims C1–C3) -/

/-- Claim C1 (amended): for every user, the aggregation emits exactly one
report line per (ingredient name, measurement unit) group — the emitted
keys are pairwise distinct and are exactly the keys occurring in the
user's cart, in order of first occurrence during the cart traversal
(Python dict insertion order), not sorted by name. -/
theorem aggregate_one_line_per_group (db : DB) (user : Nat) :
    ((aggregate db user).map (fun kv => kv.1)).Nodup ∧
    (aggregate db user).map (fun kv => kv.1) = firstKeys (streamKeys db user) := by
  have h := keys_foldl_aggStep db (cartLineStream db user) []
  simp only [List.map_nil] at h
  unfold aggregate
  refine ⟨?_, h⟩
  rw [h]
  exact foldl_insKey_nodup _ _ List.nodup_nil

/-- Claim C1, counterexample to the claim as stated: on the spec's own
scenario (§8) the report order is the insertion order Salt, Sugar, Flour,
which is not ascending by name — the code at `views.py:105-108` iterates
`ingredient_dict.items()` without sorting. -/
theorem aggregate_not_sorted_counterexample :
    aggregate exampleDB 7
        = [(("Salt", "g"), 5), (("Sugar", "g"), 5), (("Flour", "g"), 100)] ∧
    sortedByName (aggregate exampleDB 7) = false := by
  constructor <;> decide

/-- Claim C2: the aggregation groups the cart's ingredient lines by the
textual pair (ingredient.name, ingredient.measurement_unit) — lines whose
catalog rows differ in id but agree in name and unit land in the same
group — and each group's reported total is the sum of the amounts of all
lines in the group (each group being reported on exactly one line). -/
theorem aggregate_sums_by_textual_key (db : DB) (user : Nat)
    (key : String × String) :
    dictGet (aggregate db user) key = groupTotal db user key ∧
    ((aggregate db user).map (fun kv => kv.1)).Nodup := by
  constructor
  · have h := dictGet_foldl_aggStep db (cartLineStream db user) [] key
    simpa [aggregate, groupTotal, dictGet] using h
  · have h := keys_foldl_aggStep db (cartLineStream db user) []
    simp only [List.map_nil] at h
    rw [aggregate, h]
    exact foldl_insKey_nodup _ _ List.nodup_nil

/-- Claim C3: every group present in the aggregated dict is rendered in the
report as exactly the string `"<name> (<unit>) — <total>"`, where `<total>`
is the group's summed amount printed as a decimal integer (the `:.0f`
format of the exactly-integral float total). -/
theorem shoppingList_line_format (db : DB) (user : Nat)
    (key : String × String)
    (h : key ∈ (aggregate db user).map (fun kv => kv.1)) :
    renderLine key (groupTotal db user key) ∈ shoppingList db user := by
  obtain ⟨kv, hkv, hfst⟩ := List.mem_map.mp h
  have hnd : ((aggregate db user).map (fun kv => kv.1)).Nodup := by
    have hkeys := keys_foldl_aggStep db (cartLineStream db user) []
    simp only [List.map_nil] at hkeys
    unfold aggregate
    rw [hkeys]
    exact foldl_insKey_nodup _ _ List.nodup_nil
  have hget : dictGet (aggregate db user) kv.1 = kv.2 :=
    dictGet_of_mem _ kv hnd hkv
  have hsum : dictGet (aggregate db user) key = groupTotal db user key := by
    have h2 := dictGet_foldl_aggStep db (cartLineStream db user) [] key
    simpa [aggregate, groupTotal, dictGet] using h2
  have hv : groupTotal db user key = kv.2 := by
    rw [← hsum, ← hfst, hget]
  rw [hv]
  unfold shoppingList
  have : renderLine kv.1 kv.2 ∈ (aggregate db user).map
      (fun kv => renderLine kv.1 kv.2) :=
    List.mem_map_of_mem _ hkv
  rw [← hfst]
  exact this

/-- Witness for claim C3 at the concrete scenario store: the Salt group is
present and its rendered line is in the report. -/
theorem shoppingList_line_format_witness :
    (("Salt", "g") ∈ (aggregate exampleDB 7).map (fun kv => kv.1)) ∧
    renderLine ("Salt", "g") (groupTotal exampleDB 7 ("Salt", "g"))
      ∈ shoppingList exampleDB 7 :=
  ⟨by decide, shoppingList_line_format exampleDB 7 ("Salt", "g") (by decide)⟩

/-! ## Theorems: cart/favorite ledger (claim C7) -/

/-- Claim C7: for every (user, recipe) pair and each ledger kind, `add` on a
present pair fails with AlreadyExists and changes nothing, `remove` on an
absent pair fails with NotFound and changes nothing, and a successful add
followed by a successful remove leaves `contains` false. -/
theorem ledger_add_remove_contains (db : DB) (kind : LedgerKind)
    (user recipe : Nat) :
    (ledgerContains db kind user recipe = true →
      ledgerAdd db kind user recipe
        = (db, Except.error ConflictErr.alreadyExists)) ∧
    (ledgerContains db kind user recipe = false →
      ledgerRemove db kind user recipe
        = (db, Except.error ConflictErr.notFound)) ∧
    (ledgerContains db kind user recipe = false →
      ∃ db1 db2,
        ledgerAdd db kind user recipe = (db1, Except.ok ()) ∧
        ledgerRemove db1 kind user recipe = (db2, Except.ok ()) ∧
        ledgerContains db2 kind user recipe = false) := by
  cases kind with
  | cart =>
      refine ⟨?_, ?_, ?_⟩
      · intro h
        simp only [ledgerContains, ledgerTable, decide_eq_true_eq] at h
        simp [ledgerAdd, shoppingCartPost, h]
      · intro h
        simp only [ledgerContains, ledgerTable, decide_eq_false_iff_not] at h
        simp [ledgerRemove, shoppingCartDelete, h]
      · intro h
        simp only [ledgerContains, ledgerTable, decide_eq_false_iff_not] at h
        have hadd : ledgerAdd db LedgerKind.cart user recipe = ({ db with cart := db.cart ++ [(user, recipe)] }, Except.ok ()) := by
          simp [ledgerAdd, shoppingCartPost, h]
        have hrem : ledgerRemove { db with cart := db.cart ++ [(user, recipe)] } LedgerKind.cart user recipe = ({ db with cart := (db.cart ++ [(user, recipe)]).filter (fun c => !(c == (user, recipe))) }, Except.ok ()) := by
          simp [ledgerRemove, shoppingCartDelete, List.mem_append]
        have hcon : ledgerContains { db with cart := (db.cart ++ [(user, recipe)]).filter (fun c => !(c == (user, recipe))) } LedgerKind.cart user recipe = false := by
          simp only [ledgerContains, ledgerTable, decide_eq_false_iff_not]
          intro hmem
          have h2 := (List.mem_filter.mp hmem).2
          simp at h2
        exact ⟨_, _, hadd, hrem, hcon⟩
  | favorite =>
      refine ⟨?_, ?_, ?_⟩
      · intro h
        simp only [ledgerContains, ledgerTable, decide_eq_true_eq] at h
        simp [ledgerAdd, favoritePost, h]
      · intro h
        simp only [ledgerContains, ledgerTable, decide_eq_false_iff_not] at h
        simp [ledgerRemove, favoriteDelete, h]
      · intro h
        simp only [ledgerContains, ledgerTable, decide_eq_false_iff_not] at h
        have hadd : ledgerAdd db LedgerKind.favorite user recipe = ({ db with favorites := db.favorites ++ [(user, recipe)] }, Except.ok ()) := by
          simp [ledgerAdd, favoritePost, h]
        have hrem : ledgerRemove { db with favorites := db.favorites ++ [(user, recipe)] } LedgerKind.favorite user recipe = ({ db with favorites := (db.favorites ++ [(user, recipe)]).filter (fun c => !(c == (user, recipe))) }, Except.ok ()) := by
          simp [ledgerRemove, favoriteDelete, List.mem_append]
        have hcon : ledgerContains { db with favorites := (db.favorites ++ [(user, recipe)]).filter (fun c => !(c == (user, recipe))) } LedgerKind.favorite user recipe = false := by
          simp only [ledgerContains, ledgerTable, decide_eq_false_iff_not]
          intro hmem
          have h2 := (List.mem_filter.mp hmem).2
          simp at h2
        exact ⟨_, _, hadd, hrem, hcon⟩

/-- Witness for claim C7 at the concrete store: (7, 1) is in user 7's cart
so a second add is rejected; (7, 99) is absent so remove is rejected while
add-then-remove round-trips to `contains = false`, both for the cart and
for the favorites relation. -/
theorem ledger_add_remove_contains_witness :
    ledgerAdd exampleDB LedgerKind.cart 7 1
      = (exampleDB, Except.error ConflictErr.alreadyExists) ∧
    ledgerRemove exampleDB LedgerKind.cart 7 99
      = (exampleDB, Except.error ConflictErr.notFound) ∧
    (∃ db1 db2,
      ledgerAdd exampleDB LedgerKind.favorite 7 1 = (db1, Except.ok ()) ∧
      ledgerRemove db1 LedgerKind.favorite 7 1 = (db2, Except.ok ()) ∧
      ledgerContains db2 LedgerKind.favorite 7 1 = false) :=
  ⟨(ledger_add_remove_contains exampleDB LedgerKind.cart 7 1).1 (by decide),
   (ledger_add_remove_contains exampleDB LedgerKind.cart 7 99).2.1 (by decide),
   (ledger_add_remove_contains exampleDB LedgerKind.favorite 7 1).2.2
     (by decide)⟩

/-! ## Lemmas about the write-path validators -/

theorem dupScan_eq_false_iff (seen : List Nat) (l : List LineInput) :
    dupScan seen l = false
      ↔ (l.map (fun x => x.id)).Nodup ∧ ∀ x ∈ l, x.id ∉ seen := by
  induction l generalizing seen with
  | nil => simp [dupScan]
  | cons item rest ih =>
      by_cases hmem : item.id ∈ seen
      · simp only [dupScan, if_pos hmem]
        constructor
        · intro h
          exact Bool.noConfusion h
        · rintro ⟨hnd, hall⟩
          exact absurd hmem (hall item (List.mem_cons_self item rest))
      · simp only [dupScan, if_neg hmem]
        rw [ih]
        constructor
        · rintro ⟨hnd, hall⟩
          refine ⟨?_, ?_⟩
          · simp only [List.map_cons, List.nodup_cons]
            refine ⟨?_, hnd⟩
            intro hc
            obtain ⟨x, hx, hxid⟩ := List.mem_map.mp hc
            exact hall x hx (hxid ▸ List.mem_cons_self _ _)
          · intro x hx hxs
            cases List.mem_cons.mp hx with
            | inl heq => exact hmem (heq ▸ hxs)
            | inr hin =>
                exact hall x hin (List.mem_cons_of_mem _ hxs)
        · rintro ⟨hnd, hall⟩
          simp only [List.map_cons, List.nodup_cons] at hnd
          refine ⟨hnd.2, ?_⟩
          intro x hx
          simp only [List.mem_cons]
          rintro (heq | hin)
          · exact hnd.1 (heq ▸ List.mem_map_of_mem (fun x => x.id) hx)
          · exact hall x (List.mem_cons_of_mem _ hx) hin

theorem validateAmounts_ok_of (minA maxA : Nat) (data : List LineInput)
    (h : ∀ l ∈ data, minA ≤ l.amount ∧ l.amount ≤ maxA) :
    validateAmounts minA maxA data = Except.ok data := by
  unfold validateAmounts
  have hall : data.all
      (fun l => decide (minA ≤ l.amount) && decide (l.amount ≤ maxA)) = true := by
    simp only [List.all_eq_true, Bool.and_eq_true, decide_eq_true_eq]
    exact h
  simp [hall]

theorem isEmpty_false_of_ne_nil {α : Type} (l : List α) (h : l ≠ []) :
    l.isEmpty = false := by
  cases l with
  | nil => exact absurd rfl h
  | cons x xs => rfl

theorem validateIngredientsField_dup (db : DB) (minA maxA : Nat)
    (data : List LineInput)
    (hamt : ∀ l ∈ data, minA ≤ l.amount ∧ l.amount ≤ maxA)
    (hdup : ¬ (data.map (fun x => x.id)).Nodup) :
    validateIngredientsField db minA maxA data
      = Except.error ⟨ErrKind.duplicate, "ingredients"⟩ := by
  unfold validateIngredientsField
  rw [validateAmounts_ok_of _ _ _ hamt]
  have hne : data ≠ [] := by
    rintro rfl
    exact hdup (by simp)
  have hscan : dupScan [] data = true := by
    by_contra hc
    rw [Bool.not_eq_true] at hc
    exact hdup ((dupScan_eq_false_iff [] data).mp hc).1
  simp [isEmpty_false_of_ne_nil data hne, hscan]

theorem validateIngredientsField_notFound (db : DB) (minA maxA : Nat)
    (data : List LineInput)
    (hamt : ∀ l ∈ data, minA ≤ l.amount ∧ l.amount ≤ maxA)
    (hnd : (data.map (fun x => x.id)).Nodup)
    (hne : data ≠ [])
    (hmiss : ∃ l ∈ data, ingredientExists db l.id = false) :
    validateIngredientsField db minA maxA data
      = Except.error ⟨ErrKind.notFound, "ingredients"⟩ := by
  unfold validateIngredientsField
  rw [validateAmounts_ok_of _ _ _ hamt]
  have hscan : dupScan [] data = false := by
    rw [dupScan_eq_false_iff]
    exact ⟨hnd, by simp⟩
  have hall : data.all (fun l => ingredientExists db l.id) = false := by
    obtain ⟨l, hl, hfalse⟩ := hmiss
    by_contra hc
    rw [Bool.not_eq_false, List.all_eq_true] at hc
    rw [hc l hl] at hfalse
    exact Bool.noConfusion hfalse
  simp [isEmpty_false_of_ne_nil data hne, hscan, hall]

theorem validateIngredientsField_ok_of (db : DB) (minA maxA : Nat)
    (data : List LineInput)
    (hne : data ≠ [])
    (hnd : (data.map (fun x => x.id)).Nodup)
    (hex : ∀ l ∈ data, ingredientExists db l.id = true)
    (hamt : ∀ l ∈ data, minA ≤ l.amount ∧ l.amount ≤ maxA) :
    validateIngredientsField db minA maxA data = Except.ok data := by
  unfold validateIngredientsField
  rw [validateAmounts_ok_of _ _ _ hamt]
  have hscan : dupScan [] data = false := by
    rw [dupScan_eq_false_iff]
    exact ⟨hnd, by simp⟩
  have hall : data.all (fun l => ingredientExists db l.id) = true := by
    rw [List.all_eq_true]
    exact hex
  simp [isEmpty_false_of_ne_nil data hne, hscan, hall]

theorem validateTagsField_ok_of (db : DB) (tagIds : List Nat)
    (hne : tagIds ≠ [])
    (hex : ∀ t ∈ tagIds, tagExists db t = true) :
    validateTagsField db tagIds = Except.ok tagIds := by
  unfold validateTagsField
  have hall : tagIds.all (tagExists db) = true := by
    rw [List.all_eq_true]
    exact hex
  simp [hall, isEmpty_false_of_ne_nil tagIds hne]

theorem validateCookingTime_ok_of (minT maxT t : Int)
    (h : minT ≤ t ∧ t ≤ maxT) :
    validateCookingTime minT maxT t = Except.ok t := by
  unfold validateCookingTime
  rw [if_neg (by omega), if_neg (by omega)]

/-! ## Theorems: recipe validation (claims C4, C5, C8) -/

/-- Claim C4: a payload whose ingredient lines repeat an ingredient id (and
whose per-line amounts pass the child validation that the framework runs
first) is rejected by both `create` and `update` with a ValidationError of
kind Duplicate on the `ingredients` field, and the store is left untouched
— no recipe row, line row, or tag-membership row is persisted. -/
theorem create_update_reject_duplicate (db : DB) (minT maxT : Int)
    (minA maxA : Nat) (author rid : Nat)
    (p : RecipePayload) (q : UpdatePayload)
    (hamt : ∀ l ∈ p.ingredients, minA ≤ l.amount ∧ l.amount ≤ maxA)
    (hdup : ¬ (p.ingredients.map (fun x => x.id)).Nodup)
    (hq : q.ingredients = some p.ingredients)
    (hrid : recipeExists db rid = true) :
    (∃ es, createRecipe db minT maxT minA maxA author p
        = (db, Except.error es)
      ∧ ⟨ErrKind.duplicate, "ingredients"⟩ ∈ es) ∧
    (∃ es, updateRecipe db minT maxT minA maxA rid q
        = (db, Except.error es)
      ∧ ⟨ErrKind.duplicate, "ingredients"⟩ ∈ es) := by
  have hing := validateIngredientsField_dup db minA maxA p.ingredients hamt hdup
  constructor
  · refine ⟨fieldErrors db minT maxT minA maxA p, ?_, ?_⟩
    · have hne : fieldErrors db minT maxT minA maxA p ≠ [] := by
        unfold fieldErrors
        rw [hing]
        simp
      unfold createRecipe
      simp [hne]
    · unfold fieldErrors
      rw [hing]
      simp
  · refine ⟨updateFieldErrors db minT maxT minA maxA q, ?_, ?_⟩
    · have hne : updateFieldErrors db minT maxT minA maxA q ≠ [] := by
        unfold updateFieldErrors
        rw [hq]
        simp [hing]
      unfold updateRecipe
      simp [hrid, hne]
    · unfold updateFieldErrors
      rw [hq]
      simp [hing]

/-- Witness for claim C4: on the concrete store, a payload with lines
[(id 1, 2), (id 1, 3)] is rejected by create and by update of recipe 1,
each with the Duplicate error and an unchanged store. -/
theorem create_update_reject_duplicate_witness :
    (∃ es, createRecipe exampleDB 1 32000 1 32000 1
          ⟨"Soup", "img", "text", 10, [1], [⟨1, 2⟩, ⟨1, 3⟩]⟩
        = (exampleDB, Except.error es)
      ∧ ⟨ErrKind.duplicate, "ingredients"⟩ ∈ es) ∧
    (∃ es, updateRecipe exampleDB 1 32000 1 32000 1
          ⟨none, none, none, none, none, some [⟨1, 2⟩, ⟨1, 3⟩]⟩
        = (exampleDB, Except.error es)
      ∧ ⟨ErrKind.duplicate, "ingredients"⟩ ∈ es) :=
  create_update_reject_duplicate exampleDB 1 32000 1 32000 1 1
    ⟨"Soup", "img", "text", 10, [1], [⟨1, 2⟩, ⟨1, 3⟩]⟩
    ⟨none, none, none, none, none, some [⟨1, 2⟩, ⟨1, 3⟩]⟩
    (by decide) (by decide) rfl (by decide)

/-- Claim C5: a payload whose ingredient ids are pairwise distinct and pass
the per-line amount validation but reference at least one id missing from
the catalog is rejected by both `create` and `update` with a
ValidationError of kind NotFound on `ingredients`, and the store is left
untouched — in particular a mix of valid and invalid ids persists zero
lines, not just the valid ones. -/
theorem create_update_reject_unknown_ingredient (db : DB) (minT maxT : Int)
    (minA maxA : Nat) (author rid : Nat)
    (p : RecipePayload) (q : UpdatePayload)
    (hamt : ∀ l ∈ p.ingredients, minA ≤ l.amount ∧ l.amount ≤ maxA)
    (hnd : (p.ingredients.map (fun x => x.id)).Nodup)
    (hne : p.ingredients ≠ [])
    (hmiss : ∃ l ∈ p.ingredients, ingredientExists db l.id = false)
    (hq : q.ingredients = some p.ingredients)
    (hrid : recipeExists db rid = true) :
    (∃ es, createRecipe db minT maxT minA maxA author p
        = (db, Except.error es)
      ∧ ⟨ErrKind.notFound, "ingredients"⟩ ∈ es) ∧
    (∃ es, updateRecipe db minT maxT minA maxA rid q
        = (db, Except.error es)
      ∧ ⟨ErrKind.notFound, "ingredients"⟩ ∈ es) := by
  have hing := validateIngredientsField_notFound db minA maxA p.ingredients
    hamt hnd hne hmiss
  constructor
  · refine ⟨fieldErrors db minT maxT minA maxA p, ?_, ?_⟩
    · have hnee : fieldErrors db minT maxT minA maxA p ≠ [] := by
        unfold fieldErrors
        rw [hing]
        simp
      unfold createRecipe
      simp [hnee]
    · unfold fieldErrors
      rw [hing]
      simp
  · refine ⟨updateFieldErrors db minT maxT minA maxA q, ?_, ?_⟩
    · have hnee : updateFieldErrors db minT maxT minA maxA q ≠ [] := by
        unfold updateFieldErrors
        rw [hq]
        simp [hing]
      unfold updateRecipe
      simp [hrid, hnee]
    · unfold updateFieldErrors
      rw [hq]
      simp [hing]

/-- Witness for claim C5: lines with ids 1 and 2 valid, id 99 absent from
the catalog — both create and update of recipe 1 are rejected with
NotFound and the store is unchanged (zero lines persisted). -/
theorem create_update_reject_unknown_ingredient_witness :
    (∃ es, createRecipe exampleDB 1 32000 1 32000 1
          ⟨"Soup", "img", "text", 10, [1], [⟨1, 2⟩, ⟨2, 3⟩, ⟨99, 4⟩]⟩
        = (exampleDB, Except.error es)
      ∧ ⟨ErrKind.notFound, "ingredients"⟩ ∈ es) ∧
    (∃ es, updateRecipe exampleDB 1 32000 1 32000 1
          ⟨none, none, none, none, none, some [⟨1, 2⟩, ⟨2, 3⟩, ⟨99, 4⟩]⟩
        = (exampleDB, Except.error es)
      ∧ ⟨ErrKind.notFound, "ingredients"⟩ ∈ es) :=
  create_update_reject_unknown_ingredient exampleDB 1 32000 1 32000 1 1
    ⟨"Soup", "img", "text", 10, [1], [⟨1, 2⟩, ⟨2, 3⟩, ⟨99, 4⟩]⟩
    ⟨none, none, none, none, none, some [⟨1, 2⟩, ⟨2, 3⟩, ⟨99, 4⟩]⟩
    (by decide) (by decide) (by decide)
    ⟨⟨99, 4⟩, by decide, by decide⟩ rfl (by decide)

/-- Claim C8: the `cooking_time` validator chain accepts a value t exactly
when MIN_COOKING_TIME ≤ t ≤ MAX_COOKING_TIME, and at the boundaries both
MIN and MAX are accepted while MIN−1 and MAX+1 are rejected with an
OutOfRange error on `cooking_time`. -/
theorem cooking_time_accepted_iff_in_range (minT maxT : Int) :
    (∀ t : Int, validateCookingTime minT maxT t = Except.ok t
        ↔ (minT ≤ t ∧ t ≤ maxT)) ∧
    (minT ≤ maxT →
      validateCookingTime minT maxT minT = Except.ok minT ∧
      validateCookingTime minT maxT maxT = Except.ok maxT ∧
      validateCookingTime minT maxT (minT - 1)
        = Except.error ⟨ErrKind.outOfRange, "cooking_time"⟩ ∧
      validateCookingTime minT maxT (maxT + 1)
        = Except.error ⟨ErrKind.outOfRange, "cooking_time"⟩) := by
  constructor
  · intro t
    constructor
    · intro h
      unfold validateCookingTime at h
      by_cases h1 : t < minT
      · rw [if_pos h1] at h
        exact Except.noConfusion h
      · rw [if_neg h1] at h
        by_cases h2 : maxT < t
        · rw [if_pos h2] at h
          exact Except.noConfusion h
        · omega
    · exact validateCookingTime_ok_of minT maxT t
  · intro hle
    refine ⟨validateCookingTime_ok_of _ _ _ (by omega),
            validateCookingTime_ok_of _ _ _ (by omega), ?_, ?_⟩
    · unfold validateCookingTime
      rw [if_pos (by omega)]
    · unfold validateCookingTime
      rw [if_neg (by omega), if_pos (by omega)]

/-- Witness for claim C8 at the concrete bounds MIN = 1, MAX = 32000 and
the in-range value 10. -/
theorem cooking_time_accepted_iff_in_range_witness :
    (validateCookingTime 1 32000 10 = Except.ok 10 ↔ (1 ≤ (10 : Int) ∧ (10 : Int) ≤ 32000)) ∧
    (validateCookingTime 1 32000 1 = Except.ok 1 ∧
     validateCookingTime 1 32000 32000 = Except.ok 32000 ∧
     validateCookingTime 1 32000 0
       = Except.error ⟨ErrKind.outOfRange, "cooking_time"⟩ ∧
     validateCookingTime 1 32000 32001
       = Except.error ⟨ErrKind.outOfRange, "cooking_time"⟩) :=
  ⟨(cooking_time_accepted_iff_in_range 1 32000).1 10,
   (cooking_time_accepted_iff_in_range 1 32000).2 (by norm_num)⟩

/-! ## Lemmas for the commit paths -/

theorem performUpdate_recipeTags (db : DB) (rid : Nat) (q : UpdatePayload) :
    (performUpdate db rid q).recipeTags
      = match q.tags with
        | some ts =>
            db.recipeTags.filter (fun rt => !(rt.1 == rid))
              ++ (tagSet ts).map (fun t => (rid, t))
        | none => db.recipeTags := by
  unfold performUpdate
  cases q.tags <;> cases q.ingredients <;> rfl

theorem performUpdate_lines (db : DB) (rid : Nat) (q : UpdatePayload) :
    (performUpdate db rid q).lines
      = match q.ingredients with
        | some data =>
            db.lines.filter (fun l => !(l.recipe == rid))
              ++ data.map (fun l => ⟨l.id, rid, l.amount⟩)
        | none => db.lines := by
  unfold performUpdate
  cases q.tags <;> cases q.ingredients <;> rfl

theorem validateTagsField_ok_inv (db : DB) (ts : List Nat) (r : List Nat)
    (h : validateTagsField db ts = Except.ok r) : r = ts ∧ ts ≠ [] := by
  unfold validateTagsField at h
  by_cases hall : ts.all (tagExists db) = true
  · rw [if_pos hall] at h
    by_cases hemp : ts.isEmpty = true
    · rw [if_pos hemp] at h
      exact Except.noConfusion h
    · rw [if_neg hemp] at h
      injection h with h2
      refine ⟨h2.symm, ?_⟩
      intro he
      subst he
      exact hemp rfl
  · rw [if_neg hall] at h
    exact Except.noConfusion h

theorem validateIngredientsField_ok_inv (db : DB) (minA maxA : Nat)
    (data r : List LineInput)
    (h : validateIngredientsField db minA maxA data = Except.ok r) :
    r = data ∧ data ≠ [] := by
  unfold validateIngredientsField at h
  split at h
  · exact Except.noConfusion h
  · next data2 heq =>
      have hd2 : data2 = data := by
        unfold validateAmounts at heq
        by_cases hall : data.all
            (fun l => decide (minA ≤ l.amount) && decide (l.amount ≤ maxA)) = true
        · rw [if_pos hall] at heq
          injection heq with h3
          exact h3.symm
        · rw [if_neg hall] at heq
          exact Except.noConfusion heq
      subst hd2
      by_cases hemp : data2.isEmpty = true
      · rw [if_pos hemp] at h
        exact Except.noConfusion h
      · rw [if_neg hemp] at h
        by_cases hdup : dupScan [] data2 = true
        · rw [if_pos hdup] at h
          exact Except.noConfusion h
        · rw [if_neg hdup] at h
          by_cases hall2 : data2.all (fun l => ingredientExists db l.id) = true
          · rw [if_pos hall2] at h
            injection h with h3
            refine ⟨h3.symm, ?_⟩
            intro he
            subst he
            exact hemp rfl
          · rw [if_neg hall2] at h
            exact Except.noConfusion h

theorem fieldErrors_nil_inv (db : DB) (minT maxT : Int) (minA maxA : Nat)
    (p : RecipePayload)
    (h : fieldErrors db minT maxT minA maxA p = []) :
    p.tags ≠ [] ∧ p.ingredients ≠ [] := by
  unfold fieldErrors at h
  cases hvt : validateTagsField db p.tags with
  | error e =>
      rw [hvt] at h
      simp at h
  | ok r =>
      cases hvi : validateIngredientsField db minA maxA p.ingredients with
      | error e =>
          rw [hvt, hvi] at h
          simp at h
      | ok r2 =>
          exact ⟨(validateTagsField_ok_inv db p.tags r hvt).2,
                 (validateIngredientsField_ok_inv db minA maxA
                   p.ingredients r2 hvi).2⟩

theorem updateFieldErrors_nil_inv (db : DB) (minT maxT : Int)
    (minA maxA : Nat) (q : UpdatePayload)
    (h : updateFieldErrors db minT maxT minA maxA q = []) :
    (∀ ts, q.tags = some ts → ts ≠ []) ∧
    (∀ data, q.ingredients = some data → data ≠ []) := by
  unfold updateFieldErrors at h
  simp only [List.append_eq_nil] at h
  obtain ⟨⟨hA, hB⟩, hC⟩ := h
  constructor
  · intro ts hts
    rw [hts] at hA
    simp only [Option.some.injEq] at hA
    split at hA
    · next r heq => exact (validateTagsField_ok_inv db ts r heq).2
    · next e heq => exact absurd hA (by simp)
  · intro data hdata
    rw [hdata] at hB
    simp only [Option.some.injEq] at hB
    split at hB
    · next r heq =>
        exact (validateIngredientsField_ok_inv db minA maxA data r heq).2
    · next e heq => exact absurd hB (by simp)

theorem tagSet_ne_nil (ts : List Nat) (h : ts ≠ []) : tagSet ts ≠ [] := by
  cases ts with
  | nil => exact absurd rfl h
  | cons t rest =>
      intro he
      have : t ∈ tagSet (t :: rest) := by
        unfold tagSet
        rw [mem_foldl_insKey]
        exact Or.inr (List.mem_cons_self t rest)
      rw [he] at this
      cases this

theorem performUpdate_recipeTags_some (db : DB) (rid : Nat)
    (q : UpdatePayload) (ts : List Nat) (h : q.tags = some ts) :
    (performUpdate db rid q).recipeTags
      = db.recipeTags.filter (fun rt => !(rt.1 == rid))
          ++ (tagSet ts).map (fun t => (rid, t)) := by
  rw [performUpdate_recipeTags, h]

theorem performUpdate_recipeTags_none (db : DB) (rid : Nat)
    (q : UpdatePayload) (h : q.tags = none) :
    (performUpdate db rid q).recipeTags = db.recipeTags := by
  rw [performUpdate_recipeTags, h]

theorem performUpdate_lines_some (db : DB) (rid : Nat)
    (q : UpdatePayload) (data : List LineInput) (h : q.ingredients = some data) :
    (performUpdate db rid q).lines
      = db.lines.filter (fun l => !(l.recipe == rid))
          ++ data.map (fun l => ⟨l.id, rid, l.amount⟩) := by
  rw [performUpdate_lines, h]

theorem performUpdate_lines_none (db : DB) (rid : Nat)
    (q : UpdatePayload) (h : q.ingredients = none) :
    (performUpdate db rid q).lines = db.lines := by
  rw [performUpdate_lines, h]

/-! ## Theorems: recipe create/update semantics (claims C6, C9, C10) -/

/-- Claim C6: a successful update whose payload supplies an ingredient-line
list leaves the recipe with exactly the submitted lines — the previous
line collection is wholly deleted and replaced
(`instance.ingredient_in_recipe.all().delete()` then bulk create). -/
theorem update_replaces_ingredient_lines (db db2 : DB) (minT maxT : Int)
    (minA maxA : Nat) (rid : Nat) (q : UpdatePayload) (data : List LineInput)
    (hq : q.ingredients = some data)
    (hok : updateRecipe db minT maxT minA maxA rid q = (db2, Except.ok ())) :
    recipeLines db2 rid = data.map (fun l => ⟨l.id, rid, l.amount⟩) := by
  unfold updateRecipe at hok
  by_cases hex : recipeExists db rid = true
  · rw [if_pos hex] at hok
    by_cases hes : updateFieldErrors db minT maxT minA maxA q = []
    · rw [if_pos hes] at hok
      injection hok with hdb hexc
      subst hdb
      unfold recipeLines
      rw [performUpdate_lines_some db rid q data hq, List.filter_append]
      have h1 : (db.lines.filter (fun l => !(l.recipe == rid))).filter
          (fun l => l.recipe == rid) = [] := by
        rw [List.filter_filter, List.filter_eq_nil_iff]
        intro a ha
        simp
      have h2 : (data.map
            (fun l => (⟨l.id, rid, l.amount⟩ : IngredientInRecipe))).filter
          (fun l => l.recipe == rid)
            = data.map (fun l => ⟨l.id, rid, l.amount⟩) := by
        rw [List.filter_eq_self]
        intro a ha
        obtain ⟨l, hl, rfl⟩ := List.mem_map.mp ha
        simp
      rw [h1, h2, List.nil_append]
    · rw [if_neg hes] at hok
      injection hok with hdb hexc
      exact Except.noConfusion hexc
  · rw [if_neg hex] at hok
    injection hok with hdb hexc
    exact Except.noConfusion hexc

/-- Witness for claim C6, the spec's own scenario: recipe 1 holds lines
{ingredient 1: 2, ingredient 2: 5}; updating with the single line
(ingredient 1, amount 5) succeeds and leaves exactly that line. -/
theorem update_replaces_ingredient_lines_witness :
    (updateRecipe exampleDB 1 32000 1 32000 1
        ⟨none, none, none, none, none, some [⟨1, 5⟩]⟩).2 = Except.ok () ∧
    recipeLines (updateRecipe exampleDB 1 32000 1 32000 1
        ⟨none, none, none, none, none, some [⟨1, 5⟩]⟩).1 1
      = [⟨1, 1, 5⟩] :=
  ⟨rfl,
   update_replaces_ingredient_lines exampleDB
     (updateRecipe exampleDB 1 32000 1 32000 1
       ⟨none, none, none, none, none, some [⟨1, 5⟩]⟩).1
     1 32000 1 32000 1
     ⟨none, none, none, none, none, some [⟨1, 5⟩]⟩ [⟨1, 5⟩] rfl rfl⟩

/-- Claim C9: a payload with pairwise-distinct existing ingredient ids, at
least one (existing) tag, at least one ingredient line with every amount in
range, and cooking_time in range is accepted by `create`, and reading the
created recipe returns exactly the submitted tag set and exactly the
submitted ingredient lines with their amounts (names and units resolved
from the catalog).  The freshness hypotheses say the auto-increment id is
not already referenced by stale child rows, which every consistent store
satisfies. -/
theorem create_read_round_trip (db : DB) (minT maxT : Int) (minA maxA : Nat)
    (author : Nat) (p : RecipePayload)
    (htne : p.tags ≠ [])
    (htex : ∀ t ∈ p.tags, tagExists db t = true)
    (hine : p.ingredients ≠ [])
    (hind : (p.ingredients.map (fun x => x.id)).Nodup)
    (hiex : ∀ l ∈ p.ingredients, ingredientExists db l.id = true)
    (hamt : ∀ l ∈ p.ingredients, minA ≤ l.amount ∧ l.amount ≤ maxA)
    (hct : minT ≤ p.cooking_time ∧ p.cooking_time ≤ maxT)
    (hfresh1 : ∀ rt ∈ db.recipeTags, rt.1 ≠ db.nextRecipeId)
    (hfresh2 : ∀ l ∈ db.lines, l.recipe ≠ db.nextRecipeId) :
    ∃ db2,
      createRecipe db minT maxT minA maxA author p
        = (db2, Except.ok db.nextRecipeId) ∧
      (∀ t, t ∈ readRecipeTags db2 db.nextRecipeId ↔ t ∈ p.tags) ∧
      readRecipeLines db2 db.nextRecipeId
        = p.ingredients.map (readLineInput db) := by
  have hval : fieldErrors db minT maxT minA maxA p = [] := by
    unfold fieldErrors
    rw [validateTagsField_ok_of db p.tags htne htex,
        validateIngredientsField_ok_of db minA maxA p.ingredients
          hine hind hiex hamt,
        validateCookingTime_ok_of minT maxT p.cooking_time hct]
    rfl
  refine ⟨(performCreate db author p).1, ?_, ?_, ?_⟩
  · unfold createRecipe
    rw [if_pos hval]
    rfl
  · intro t
    have hsplit : readRecipeTags (performCreate db author p).1 db.nextRecipeId
        = tagSet p.tags := by
      unfold readRecipeTags performCreate
      rw [List.filter_append]
      have hold : db.recipeTags.filter
          (fun rt => rt.1 == db.nextRecipeId) = [] := by
        rw [List.filter_eq_nil_iff]
        intro a ha
        simp [hfresh1 a ha]
      have hnew : ((tagSet p.tags).map
            (fun t => (db.nextRecipeId, t))).filter
          (fun rt => rt.1 == db.nextRecipeId)
            = (tagSet p.tags).map (fun t => (db.nextRecipeId, t)) := by
        rw [List.filter_eq_self]
        intro a ha
        obtain ⟨x, hx, rfl⟩ := List.mem_map.mp ha
        simp
      rw [hold, hnew, List.nil_append, List.map_map]
      exact List.map_id _
    rw [hsplit]
    unfold tagSet
    rw [mem_foldl_insKey]
    simp
  · have hsplit : recipeLines (performCreate db author p).1 db.nextRecipeId
        = p.ingredients.map
            (fun l => (⟨l.id, db.nextRecipeId, l.amount⟩ : IngredientInRecipe)) := by
      unfold recipeLines performCreate
      rw [List.filter_append]
      have hold : db.lines.filter (fun l => l.recipe == db.nextRecipeId) = [] := by
        rw [List.filter_eq_nil_iff]
        intro a ha
        simp [hfresh2 a ha]
      have hnew : (p.ingredients.map
            (fun l => (⟨l.id, db.nextRecipeId, l.amount⟩ : IngredientInRecipe))).filter
          (fun l => l.recipe == db.nextRecipeId)
            = p.ingredients.map
                (fun l => (⟨l.id, db.nextRecipeId, l.amount⟩ : IngredientInRecipe)) := by
        rw [List.filter_eq_self]
        intro a ha
        obtain ⟨x, hx, rfl⟩ := List.mem_map.mp ha
        simp
      rw [hold, hnew, List.nil_append]
    unfold readRecipeLines
    rw [hsplit, List.map_map]
    rfl

/-- Witness for claim C9: creating a recipe on the concrete store with tag
1 and lines (ingredient 1, 2) and (ingredient 3, 7) succeeds under id 3,
and the read-back returns tag 1 and exactly those two lines. -/
theorem create_read_round_trip_witness :
    ∃ db2,
      createRecipe exampleDB 1 32000 1 32000 1
          ⟨"Cake", "img", "txt", 10, [1], [⟨1, 2⟩, ⟨3, 7⟩]⟩
        = (db2, Except.ok exampleDB.nextRecipeId) ∧
      (∀ t, t ∈ readRecipeTags db2 exampleDB.nextRecipeId ↔ t ∈ [1]) ∧
      readRecipeLines db2 exampleDB.nextRecipeId
        = [⟨1, 2⟩, ⟨3, 7⟩].map (readLineInput exampleDB) :=
  create_read_round_trip exampleDB 1 32000 1 32000 1
    ⟨"Cake", "img", "txt", 10, [1], [⟨1, 2⟩, ⟨3, 7⟩]⟩
    (by decide) (by decide) (by decide) (by decide) (by decide) (by decide)
    (by decide) (by decide) (by decide)

/-- Claim C10: a successful create leaves the new recipe with a non-empty
tag set and a non-empty line collection, and a successful update preserves
non-emptiness of both (it either replaces a collection with a validated
non-empty one or leaves it untouched) — so no successful write produces a
recipe with no tags or no lines. -/
theorem write_success_nonempty_tags_lines (db : DB) (minT maxT : Int)
    (minA maxA : Nat) (author rid : Nat)
    (p : RecipePayload) (q : UpdatePayload) :
    (∀ db2 newId,
        createRecipe db minT maxT minA maxA author p
          = (db2, Except.ok newId) →
        readRecipeTags db2 newId ≠ [] ∧ recipeLines db2 newId ≠ []) ∧
    (∀ db2,
        updateRecipe db minT maxT minA maxA rid q = (db2, Except.ok ()) →
        (readRecipeTags db rid ≠ [] → readRecipeTags db2 rid ≠ []) ∧
        (recipeLines db rid ≠ [] → recipeLines db2 rid ≠ [])) := by
  constructor
  · intro db2 newId hok
    unfold createRecipe at hok
    by_cases hes : fieldErrors db minT maxT minA maxA p = []
    · rw [if_pos hes] at hok
      injection hok with hdb hid
      injection hid with hid
      subst hdb
      subst hid
      obtain ⟨htne, hine⟩ := fieldErrors_nil_inv db minT maxT minA maxA p hes
      constructor
      · unfold readRecipeTags performCreate
        rw [List.filter_append, List.map_append]
        intro hnil
        rw [List.append_eq_nil] at hnil
        have hnew : ((tagSet p.tags).map
              (fun t => (db.nextRecipeId, t))).filter
            (fun rt => rt.1 == db.nextRecipeId)
              = (tagSet p.tags).map (fun t => (db.nextRecipeId, t)) := by
          rw [List.filter_eq_self]
          intro a ha
          obtain ⟨x, hx, rfl⟩ := List.mem_map.mp ha
          simp
        obtain ⟨hn1, hn2⟩ := hnil
        rw [hnew, List.map_eq_nil_iff, List.map_eq_nil_iff] at hn2
        exact tagSet_ne_nil p.tags htne hn2
      · unfold recipeLines performCreate
        rw [List.filter_append]
        intro hnil
        rw [List.append_eq_nil] at hnil
        have hnew : (p.ingredients.map
              (fun l => (⟨l.id, db.nextRecipeId, l.amount⟩ : IngredientInRecipe))).filter
            (fun l => l.recipe == db.nextRecipeId)
              = p.ingredients.map
                  (fun l => (⟨l.id, db.nextRecipeId, l.amount⟩ : IngredientInRecipe)) := by
          rw [List.filter_eq_self]
          intro a ha
          obtain ⟨x, hx, rfl⟩ := List.mem_map.mp ha
          simp
        obtain ⟨hn1, hn2⟩ := hnil
        rw [hnew, List.map_eq_nil_iff] at hn2
        exact hine hn2
    · rw [if_neg hes] at hok
      injection hok with hdb hexc
      exact Except.noConfusion hexc
  · intro db2 hok
    unfold updateRecipe at hok
    by_cases hex : recipeExists db rid = true
    · rw [if_pos hex] at hok
      by_cases hes : updateFieldErrors db minT maxT minA maxA q = []
      · rw [if_pos hes] at hok
        injection hok with hdb hexc
        subst hdb
        obtain ⟨htags, hings⟩ := updateFieldErrors_nil_inv db minT maxT minA maxA q hes
        constructor
        · intro hpre
          cases htag : q.tags with
          | none =>
              unfold readRecipeTags
              rw [performUpdate_recipeTags_none db rid q htag]
              exact hpre
          | some ts =>
              have hts : ts ≠ [] := htags ts htag
              unfold readRecipeTags
              rw [performUpdate_recipeTags_some db rid q ts htag,
                  List.filter_append, List.map_append]
              intro hnil
              rw [List.append_eq_nil] at hnil
              have hnew : ((tagSet ts).map (fun t => (rid, t))).filter
                  (fun rt => rt.1 == rid)
                    = (tagSet ts).map (fun t => (rid, t)) := by
                rw [List.filter_eq_self]
                intro a ha
                obtain ⟨x, hx, rfl⟩ := List.mem_map.mp ha
                simp
              obtain ⟨hn1, hn2⟩ := hnil
              rw [hnew, List.map_eq_nil_iff, List.map_eq_nil_iff] at hn2
              exact tagSet_ne_nil ts hts hn2
        · intro hpre
          cases hing : q.ingredients with
          | none =>
              unfold recipeLines
              rw [performUpdate_lines_none db rid q hing]
              exact hpre
          | some data =>
              have hdata : data ≠ [] := hings data hing
              unfold recipeLines
              rw [performUpdate_lines_some db rid q data hing,
                  List.filter_append]
              intro hnil
              rw [List.append_eq_nil] at hnil
              have hnew : (data.map
                    (fun l => (⟨l.id, rid, l.amount⟩ : IngredientInRecipe))).filter
                  (fun l => l.recipe == rid)
                    = data.map (fun l => ⟨l.id, rid, l.amount⟩) := by
                rw [List.filter_eq_self]
                intro a ha
                obtain ⟨x, hx, rfl⟩ := List.mem_map.mp ha
                simp
              obtain ⟨hn1, hn2⟩ := hnil
              rw [hnew, List.map_eq_nil_iff] at hn2
              exact hdata hn2
      · rw [if_neg hes] at hok
        injection hok with hdb hexc
        exact Except.noConfusion hexc
    · rw [if_neg hex] at hok
      injection hok with hdb hexc
      exact Except.noConfusion hexc

/-- Witness for claim C10: a concrete successful create (the C9 payload)
and a concrete successful update (the C6 payload, with tags untouched and a
non-empty prior state) both leave recipe tags and lines non-empty. -/
theorem write_success_nonempty_tags_lines_witness :
    (createRecipe exampleDB 1 32000 1 32000 1
        ⟨"Cake", "img", "txt", 10, [1], [⟨1, 2⟩, ⟨3, 7⟩]⟩
      = ((createRecipe exampleDB 1 32000 1 32000 1
          ⟨"Cake", "img", "txt", 10, [1], [⟨1, 2⟩, ⟨3, 7⟩]⟩).1,
         Except.ok 3) ∧
      readRecipeTags (createRecipe exampleDB 1 32000 1 32000 1
          ⟨"Cake", "img", "txt", 10, [1], [⟨1, 2⟩, ⟨3, 7⟩]⟩).1 3 ≠ [] ∧
      recipeLines (createRecipe exampleDB 1 32000 1 32000 1
          ⟨"Cake", "img", "txt", 10, [1], [⟨1, 2⟩, ⟨3, 7⟩]⟩).1 3 ≠ []) ∧
    (readRecipeTags (updateRecipe exampleDB 1 32000 1 32000 1
        ⟨none, none, none, none, none, some [⟨1, 5⟩]⟩).1 1 ≠ [] ∧
     recipeLines (updateRecipe exampleDB 1 32000 1 32000 1
        ⟨none, none, none, none, none, some [⟨1, 5⟩]⟩).1 1 ≠ []) := by
  constructor
  · refine ⟨rfl, ?_⟩
    have h := (write_success_nonempty_tags_lines exampleDB 1 32000 1 32000 1 1
      ⟨"Cake", "img", "txt", 10, [1], [⟨1, 2⟩, ⟨3, 7⟩]⟩
      ⟨none, none, none, none, none, some [⟨1, 5⟩]⟩).1
      (createRecipe exampleDB 1 32000 1 32000 1
        ⟨"Cake", "img", "txt", 10, [1], [⟨1, 2⟩, ⟨3, 7⟩]⟩).1 3 rfl
    exact h
  · have h := (write_success_nonempty_tags_lines exampleDB 1 32000 1 32000 1 1
      ⟨"Cake", "img", "txt", 10, [1], [⟨1, 2⟩, ⟨3, 7⟩]⟩
      ⟨none, none, none, none, none, some [⟨1, 5⟩]⟩).2
      (updateRecipe exampleDB 1 32000 1 32000 1
        ⟨none, none, none, none, none, some [⟨1, 5⟩]⟩).1 rfl
    exact ⟨h.1 (by decide), h.2 (by decide)⟩

end Foodgram
